import Mathlib

/-!
# Verification of the EPRoC swept-measurement acquisition engine

Shallow embedding of `logic/eproc/eproc_logic.py` (class `EPRoCLogic`) and of
the reduction step of `logic/eproc_mwsweep_logic.py`.  Machine floats are
modelled by exact rationals; at every concrete input used below the double
arithmetic of the source is exact, so the rational model agrees with the code.
-/

namespace EPRoC

/-- Embedding of `np.rint` on an exact rational: round to nearest, ties to even
(IEEE round-half-even, the rounding used by `numpy.rint`). -/
def rint (q : ℚ) : ℤ :=
  if q - (⌊q⌋ : ℚ) < 1/2 then ⌊q⌋
  else if 1/2 < q - (⌊q⌋ : ℚ) then ⌊q⌋ + 1
  else if ⌊q⌋ % 2 = 0 then ⌊q⌋ else ⌊q⌋ + 1

/-- Length of `np.arange(start, stop, step)` for float arguments:
`max 0 ⌈(stop - start) / step⌉` elements (numpy's formula).  `step = 0`
raises in numpy; modelled as an empty grid. -/
def arangeSize (start stop step : ℚ) : ℕ :=
  if step = 0 then 0 else (⌈(stop - start) / step⌉).toNat

/-- The `k`-th element of `np.arange(start, _, step)`: `start + k * step`. -/
def arangeVal (start step : ℚ) (k : ℕ) : ℚ :=
  start + (k : ℚ) * step

/-- The stop-value rewrite of `EPRoCLogic._check_range`
(`num_step = int(np.rint((stop - start) / step)); stop = start + num_step * step`). -/
def checkRangeStop (start step stop : ℚ) : ℚ :=
  start + (rint ((stop - start) / step) : ℚ) * step

/-- The guard applied to the stop value by `EPRoCLogic.set_fs_parameters`
(and `set_bs_parameters`): `if stop <= start: stop = start + step`. -/
def stopGuard (start step stop : ℚ) : ℚ :=
  if stop ≤ start then start + step else stop

/-- The full stop normalization described by the spec's `normalize`:
the `set_fs_parameters` guard followed by the `_check_range` grid rewrite.
(In `logic/eproc/eproc_logic.py` itself `_check_range` is never invoked;
this composition is the normalization the spec attributes to the code.) -/
def normalizeFs (start step stop : ℚ) : ℚ :=
  checkRangeStop start step (stopGuard start step stop)

/-- Responses of the hardware capability interfaces (microwave source, magnet,
lock-in, constraint object).  The engine treats these as opaque collaborators;
a concrete `Devices` value stands for one run's device behaviour. -/
structure Devices where
  frequencyInRange : ℚ → ℚ
  powerInRange : ℚ → ℚ
  sweepStepInRange : ℚ → ℚ
  setCw : ℚ → ℚ → ℚ × ℚ
  setCentralField : ℚ → ℚ
  setInputRange : String → String
  setAmplitude : ℚ → ℚ
  setCouplingType : String → String
  setFrequency : ℚ → ℚ
  setTimeConstants : ℚ → ℚ → ℚ × ℚ
  setPhases : ℚ → ℚ → ℚ × ℚ
  setHarmonic : String → String
  setRolloff : String → String
  setInputConfig : String → String
  magnetSettlingTime : ℚ
  magnetSettlingTimeLarge : ℚ

/-- The mutable state of `EPRoCLogic` (fields of `self` used by the
acquisition loop).  `locked` models `module_state() == 'locked'`;
`rawData a s x ch` is `eproc_raw_data[a, s, x, ch]`
(`[accumulation][sweep][point][channel]`), `plotY x ch` is
`eproc_plot_y[x, ch]`, and `pointCount` is `eproc_plot_x.size`. -/
structure EprocState where
  locked : Bool
  isEprocRunning : Bool
  stopRequested : Bool
  stopNextSweepRequested : Bool
  nSweep : ℕ
  nAccumulation : ℕ
  isFs : Bool
  fsField : ℚ
  fsMwPower : ℚ
  fsStart : ℚ
  fsStop : ℚ
  fsStep : ℚ
  bsFrequency : ℚ
  bsMwPower : ℚ
  bsStart : ℚ
  bsStop : ℚ
  bsStep : ℚ
  liaRange : String
  liaUac : ℚ
  liaCoupling : String
  liaIntFreq : ℚ
  liaTauA : ℚ
  liaPhaseA : ℚ
  liaTauB : ℚ
  liaPhaseB : ℚ
  liaWaitingTimeFactor : ℚ
  liaHarmonic : String
  liaSlope : String
  liaConfiguration : String
  liaWaitingTime : ℚ
  elapsedSweeps : ℕ
  elapsedAccumulations : ℕ
  elapsedX : ℕ
  pointCount : ℕ
  plotY : ℕ → Fin 4 → ℚ
  rawData : ℕ → ℕ → ℕ → Fin 4 → ℚ

/-- Embedding of `EPRoCLogic._initialize_eproc_plots`: rebuild `eproc_plot_x` as
`np.arange(start, stop + step, step)` for the active axis and zero
`eproc_plot_y`. -/
def initializeEprocPlots (st : EprocState) : EprocState :=
  { st with
    pointCount :=
      if st.isFs then arangeSize st.fsStart (st.fsStop + st.fsStep) st.fsStep
      else arangeSize st.bsStart (st.bsStop + st.bsStep) st.bsStep
    plotY := fun _ _ => 0 }

/-- Embedding of `EPRoCLogic._check_range`: rewrite both stop values onto the grid
`start + rint((stop - start)/step) * step`.  (Dead code in this revision:
no caller exists, despite its comment claiming `start_eproc` uses it.) -/
def check_range (st : EprocState) : EprocState :=
  { st with
    fsStop := checkRangeStop st.fsStart st.fsStep st.fsStop
    bsStop := checkRangeStop st.bsStart st.bsStep st.bsStop }

/-- Embedding of `EPRoCLogic.set_fs_parameters` (microwave-sweep parameters).  The
`isinstance` numeric checks of the source hold vacuously here since every
argument is a rational.  Note the source guards `stop <= start` on the raw
arguments, clamps through the limits object, ignores the `power` argument
(its clamping is commented out) and feeds the previously stored power to
`set_cw`. -/
def set_fs_parameters (dev : Devices) (st : EprocState)
    (start step stop field power : ℚ) (freqPos : ℕ) : EprocState :=
  if st.locked then st
  else
    let fsStart := dev.frequencyInRange start
    let fsStep := dev.sweepStepInRange step
    let stop1 := if stop ≤ start then start + step else stop
    let fsStop := dev.frequencyInRange stop1
    let st1 := { st with fsStart := fsStart, fsStep := fsStep, fsStop := fsStop }
    let st2 :=
      if freqPos = 0 then
        let r := dev.setCw st1.fsStart st1.fsMwPower
        { st1 with fsStart := r.1, fsMwPower := r.2 }
      else if freqPos = 1 then
        let center := (st1.fsStart + st1.fsStop) / 2
        let r := dev.setCw center st1.fsMwPower
        { st1 with fsMwPower := r.2 }
      else if freqPos = 2 then
        let r := dev.setCw st1.fsStop st1.fsMwPower
        { st1 with fsStop := r.1, fsMwPower := r.2 }
      else st1
    { st2 with fsField := dev.setCentralField field }

/-- Embedding of `EPRoCLogic.set_bs_parameters` (field-sweep parameters). -/
def set_bs_parameters (dev : Devices) (st : EprocState)
    (start step stop frequency power : ℚ) (fieldPos : ℕ) : EprocState :=
  if st.locked then st
  else
    let stop1 := if stop ≤ start then start + step else stop
    let st1 := { st with bsStart := start, bsStop := stop1, bsStep := step }
    let st2 :=
      if fieldPos = 0 then
        { st1 with bsStart := dev.setCentralField st1.bsStart }
      else if fieldPos = 1 then
        st1  -- the response to set_central_field(center) is discarded
      else if fieldPos = 2 then
        { st1 with bsStop := dev.setCentralField st1.bsStop }
      else st1
    let f := dev.frequencyInRange frequency
    let p := dev.powerInRange power
    let r := dev.setCw f p
    { st2 with bsFrequency := r.1, bsMwPower := r.2 }

/-- Embedding of `EPRoCLogic.set_lia_parameters` (lock-in settings).  The source accepts
the values only when not locked and `waiting_time_factor > 0`. -/
def set_lia_parameters (dev : Devices) (st : EprocState)
    (inputRange : String) (uac : ℚ) (coupling : String) (intRefFreq tauA phaseA tauB phaseB
    waitingTimeFactor : ℚ) (harmonic slope configuration : String) : EprocState :=
  if st.locked then st
  else if 0 < waitingTimeFactor then
    let taus := dev.setTimeConstants tauA tauB
    let phases := dev.setPhases phaseA phaseB
    { st with
      liaRange := dev.setInputRange inputRange
      liaUac := dev.setAmplitude uac
      liaCoupling := dev.setCouplingType coupling
      liaIntFreq := dev.setFrequency intRefFreq
      liaTauA := taus.1
      liaTauB := taus.2
      liaPhaseA := phases.1
      liaPhaseB := phases.2
      liaWaitingTimeFactor := waitingTimeFactor
      liaHarmonic := dev.setHarmonic harmonic
      liaSlope := dev.setRolloff slope
      liaConfiguration := dev.setInputConfig configuration }
  else st

/-- Embedding of `EPRoCLogic.set_eproc_scan_parameters` (sweep/accumulation counts). -/
def set_eproc_scan_parameters (st : EprocState) (nSweep nAccumulation : ℕ) :
    EprocState :=
  if st.locked then st
  else { st with nSweep := nSweep, nAccumulation := nAccumulation }

/-- Embedding of `EPRoCLogic.start_eproc`: when not locked, derive the waiting time from
the larger lock-in time constant, reset the elapsed counters, rebuild the
plots, preallocate the zero raw-data cube, lock the module and clear the
stop flags.  The hardware configuration calls (`_set_frequency_sweep`,
`set_cw`, trigger) have no effect on this state beyond their echoed
parameters, here taken as identity responses. -/
def start_eproc (st : EprocState) : EprocState :=
  if st.locked then st
  else
    let st1 := { st with
      liaWaitingTime := max st.liaTauA st.liaTauB * st.liaWaitingTimeFactor
      elapsedSweeps := 0
      elapsedAccumulations := 0
      elapsedX := 0 }
    let st2 := initializeEprocPlots st1
    { st2 with
      rawData := fun _ _ _ _ => 0
      locked := true
      stopRequested := false
      stopNextSweepRequested := false
      isEprocRunning := true }

/-- Return code of `start_eproc` (`-1` when already locked, else `0`). -/
def start_eproc_code (st : EprocState) : ℤ :=
  if st.locked then -1 else 0

/-- Embedding of `EPRoCLogic.stop_eproc`: request a stop (flag only, honored at the top
of the next data point). -/
def stop_eproc (st : EprocState) : EprocState :=
  if st.locked then { st with stopRequested := true } else st

/-- Embedding of `EPRoCLogic.stop_eproc_next_sweep`: request a stop at the end of the
current sweep (flag only, consulted at the point-index wrap). -/
def stop_eproc_next_sweep (st : EprocState) : EprocState :=
  if st.locked then { st with stopNextSweepRequested := true } else st

/-- Embedding of `EPRoCLogic._average_data`: write into `eproc_plot_y[elapsed_x]` the
per-channel mean of `eproc_raw_data[:, :elapsed_sweeps+1, elapsed_x, :]`,
i.e. over all accumulation slots and sweeps `0..elapsed_sweeps`. -/
def average_data (st : EprocState) : EprocState :=
  { st with plotY := fun i ch =>
      if i = st.elapsedX then
        (∑ a ∈ Finset.range st.nAccumulation,
          ∑ k ∈ Finset.range (st.elapsedSweeps + 1), st.rawData a k st.elapsedX ch) /
          ((st.nAccumulation : ℚ) * ((st.elapsedSweeps : ℚ) + 1))
      else st.plotY i ch }

/-- Point/sweep advancement inside `_set_new_x_value`, run after the
reduction: reset the accumulation counter, advance the point index; on a
wrap (`elapsed_x == eproc_plot_x.size`) advance the sweep counter, reset
the point index and, when the sweeps are exhausted or a stop-after-sweep
is pending, latch `stopRequested`. -/
def advancePoint (st : EprocState) : EprocState :=
  if st.elapsedX + 1 = st.pointCount then
    if st.elapsedSweeps + 1 = st.nSweep ∨ st.stopNextSweepRequested then
      { st with elapsedAccumulations := 0, elapsedX := 0,
                elapsedSweeps := st.elapsedSweeps + 1, stopRequested := true }
    else
      { st with elapsedAccumulations := 0, elapsedX := 0,
                elapsedSweeps := st.elapsedSweeps + 1 }
  else { st with elapsedAccumulations := 0, elapsedX := st.elapsedX + 1 }

/-- Embedding of `EPRoCLogic._set_new_x_value`: advance the accumulation counter; when
it reaches `n_accumulation`, reduce the current point (`_average_data`)
and advance the point/sweep counters. -/
def set_new_x_value (st : EprocState) : EprocState :=
  if st.elapsedAccumulations + 1 = st.nAccumulation then
    advancePoint (average_data { st with elapsedAccumulations := st.elapsedAccumulations + 1 })
  else { st with elapsedAccumulations := st.elapsedAccumulations + 1 }

/-- The write performed by `EPRoCLogic._get_data_lia`: the cell
`eproc_raw_data[elapsed_accumulations, elapsed_sweeps, elapsed_x, :]` ends
up holding the last sample read (every retry overwrites the whole cell). -/
def storeSample (st : EprocState) (v : Fin 4 → ℚ) : EprocState :=
  { st with rawData := fun a k i ch =>
      if a = st.elapsedAccumulations ∧ k = st.elapsedSweeps ∧ i = st.elapsedX
      then v ch else st.rawData a k i ch }

/-- Embedding of `EPRoCLogic._next_data_point`, one scheduled tick: no-op unless locked;
a pending `stopRequested` unlocks the module without touching the data;
otherwise wait, read one sample (its final value `v`), store it and run
`_set_new_x_value`.  (`_update_remaining_time` only emits a signal; the
reported value is `remaining_time` below.) -/
def next_data_point (st : EprocState) (v : Fin 4 → ℚ) : EprocState :=
  if st.locked = false then st
  else if st.stopRequested then
    { st with stopRequested := false, isEprocRunning := false, locked := false }
  else
    set_new_x_value (storeSample st v)

/-- The `sweep_time` of `EPRoCLogic._update_remaining_time`
(`plot_x.size * n_accumulation * lia_waiting_time`, plus the magnet
settling terms on a field sweep). -/
def sweep_time (dev : Devices) (st : EprocState) : ℚ :=
  let base := (st.pointCount : ℚ) * (st.nAccumulation : ℚ) * st.liaWaitingTime
  if st.isFs then base
  else base + (st.pointCount : ℚ) * dev.magnetSettlingTime + dev.magnetSettlingTimeLarge

/-- The remaining time recomputed by `EPRoCLogic._update_remaining_time`:
`sweep_time * (n_sweep - elapsed_sweeps - elapsed_x / plot_x.size)`. -/
def remaining_time (dev : Devices) (st : EprocState) : ℚ :=
  sweep_time dev st *
    ((st.nSweep : ℚ) - (st.elapsedSweeps : ℚ) - (st.elapsedX : ℚ) / (st.pointCount : ℚ))

/-! ## The sample-retry loop of `_get_data_lia` -/

/-- The fixed noise-floor threshold `1e-7` of `_get_data_lia`. -/
def liaThreshold : ℚ := 1 / 10000000

/-- One `while abs(eproc_raw_data[..., i]) < 1e-7:` loop of
`EPRoCLogic._get_data_lia`.  `stream n` is the `n`-th sample returned by
`lockin.get_data_lia()[:4]`; `cell` is the current content of the raw-data
cell (each retry overwrites all four channels); `next` is the index of the
next unread sample.  The source loop is unbounded, so the embedding takes a
`fuel` observation bound and returns `none` when the loop is still running
after `fuel` re-reads. -/
def retryChannel (stream : ℕ → Fin 4 → ℚ) (i : Fin 4) :
    (Fin 4 → ℚ) → ℕ → ℕ → Option ((Fin 4 → ℚ) × ℕ)
  | cell, next, 0 =>
      if |cell i| < liaThreshold then none else some (cell, next)
  | cell, next, fuel+1 =>
      if |cell i| < liaThreshold then retryChannel stream i (stream next) (next+1) fuel
      else some (cell, next)

/-- Embedding of `EPRoCLogic._get_data_lia`: a first read fills the cell, then the four
per-channel retry loops run in order, each re-reading the whole cell while
its own channel is below the threshold.  Returns the final cell content, or
`none` if some loop is still running after `fuel` re-reads. -/
def get_data_lia (stream : ℕ → Fin 4 → ℚ) (fuel : ℕ) : Option (Fin 4 → ℚ) :=
  match retryChannel stream 0 (stream 0) 1 fuel with
  | none => none
  | some (c1, n1) =>
    match retryChannel stream 1 c1 n1 fuel with
    | none => none
    | some (c2, n2) =>
      match retryChannel stream 2 c2 n2 fuel with
      | none => none
      | some (c3, n3) =>
        match retryChannel stream 3 c3 n3 fuel with
        | none => none
        | some (c4, _) => some c4

/-- The sample-acquisition step terminates on input stream `stream` iff the
source's retry loops finish within some finite number of re-reads. -/
def getDataLiaTerminates (stream : ℕ → Fin 4 → ℚ) : Prop :=
  ∃ fuel r, get_data_lia stream fuel = some r

/-! ## The two reduction formulas (eproc vs. mw-sweep variant) -/

/-- Per-point accumulation mean of the mw-sweep variant
(`np.mean(eproc_raw_data[elapsed_sweeps, :, actual_index, :], axis=0)` in
`eproc_mwsweep_logic._next_measure`): `raw s a` is the sample of sweep `s`,
accumulation slot `a`, at a fixed point and channel. -/
def accumulationMean (raw : ℕ → ℕ → ℚ) (nAcc s : ℕ) : ℚ :=
  (∑ a ∈ Finset.range nAcc, raw s a) / (nAcc : ℚ)

/-- One incremental update of the mw-sweep variant:
`plot_y = (plot_y * elapsed_sweeps + new_value) / (elapsed_sweeps + 1)`. -/
def incrementalStep (prev : ℚ) (s : ℕ) (m : ℚ) : ℚ :=
  (prev * (s : ℚ) + m) / ((s : ℚ) + 1)

/-- The averaged value held by the mw-sweep variant after the point has
completed in sweeps `0..s`, starting from the zero-initialised plot. -/
def incrementalAvg (raw : ℕ → ℕ → ℚ) (nAcc : ℕ) : ℕ → ℚ
  | 0 => incrementalStep 0 0 (accumulationMean raw nAcc 0)
  | s+1 => incrementalStep (incrementalAvg raw nAcc s) (s + 1) (accumulationMean raw nAcc (s+1))

/-- The full recompute of `EPRoCLogic._average_data` on the same cube
contents: mean over all accumulation slots of sweeps `0..s`. -/
def fullRecompute (raw : ℕ → ℕ → ℚ) (nAcc s : ℕ) : ℚ :=
  (∑ a ∈ Finset.range nAcc, ∑ k ∈ Finset.range (s+1), raw k a) /
    ((nAcc : ℚ) * ((s : ℚ) + 1))

/-! ## Reference mean (independent specification for the reduction) -/

/-- The flat list of all raw samples stored at point `x`, channel `ch`:
every accumulation slot of every sweep up to and including the in-progress
one. -/
def pointSamples (st : EprocState) (x : ℕ) (ch : Fin 4) : List ℚ :=
  (List.range st.nAccumulation).flatMap fun a =>
    (List.range (st.elapsedSweeps + 1)).map fun k => st.rawData a k x ch

/-- Independent reference mean of a list of samples. -/
def referenceMean (l : List ℚ) : ℚ := l.sum / (l.length : ℚ)

/-! ## Counter bisimulation (for whole-run sample counts) -/

/-- The scheduling-relevant projection of `EprocState`: lock, stop flag and
the three elapsed counters. -/
structure Counters where
  locked : Bool
  stopReq : Bool
  a : ℕ
  x : ℕ
  s : ℕ
  deriving DecidableEq, Repr

/-- Projection of an engine state onto its counters. -/
def countersOf (st : EprocState) : Counters :=
  ⟨st.locked, st.stopRequested, st.elapsedAccumulations, st.elapsedX, st.elapsedSweeps⟩

/-- The counter dynamics of `_next_data_point` (for runs in which
`stop_eproc_next_sweep` is never called), as a pure function of the
counters. -/
def stepCounters (nAcc P N : ℕ) : Counters → Counters
  | ⟨locked, stopReq, a, x, s⟩ =>
    if locked = false then ⟨locked, stopReq, a, x, s⟩
    else if stopReq = true then ⟨false, false, a, x, s⟩
    else if a + 1 = nAcc then
      if x + 1 = P then ⟨true, decide (s + 1 = N), 0, 0, s + 1⟩
      else ⟨true, false, 0, x + 1, s⟩
    else ⟨true, stopReq, a + 1, x, s⟩

/-- Iterated counter dynamics (`t` scheduled ticks). -/
def countRun (nAcc P N : ℕ) : ℕ → Counters → Counters
  | 0, c => c
  | t+1, c => stepCounters nAcc P N (countRun nAcc P N t c)

/-- The engine state after `t` scheduled ticks, the `k`-th tick storing the
(valid) sample `vs k`. -/
def engineRun (st : EprocState) (vs : ℕ → Fin 4 → ℚ) : ℕ → EprocState
  | 0 => st
  | t+1 => next_data_point (engineRun st vs t) (vs t)

/-! ## External events of a run -/

/-- The operations an external caller can interleave with the scheduled
ticks of a run: a tick (`_next_data_point`, storing sample `v`), a
`stop_eproc` request, or a `stop_eproc_next_sweep` request. -/
inductive RunEvent where
  | tick (v : Fin 4 → ℚ)
  | stopRequest
  | stopNextSweepRequest

/-- Apply one event to the engine state. -/
def applyEvent (st : EprocState) : RunEvent → EprocState
  | .tick v => next_data_point st v
  | .stopRequest => stop_eproc st
  | .stopNextSweepRequest => stop_eproc_next_sweep st

/-- Apply a sequence of events to the engine state. -/
def runEvents (st : EprocState) (es : List RunEvent) : EprocState :=
  es.foldl applyEvent st

/-- The counter triple and flags relevant to cube-bound safety: all
accumulation/point indices strictly in range, the sweep counter at most
`n_sweep`, reaching `n_sweep` only with a stop already latched. -/
def counterInvariant (st : EprocState) : Prop :=
  st.elapsedAccumulations < st.nAccumulation ∧
  st.elapsedX < st.pointCount ∧
  st.elapsedSweeps ≤ st.nSweep ∧
  (st.locked = true → st.elapsedSweeps = st.nSweep → st.stopRequested = true)

/-- The value of `remaining_time` as a function of the waiting-time total and the
counters. -/
def remainingOf (T N s x P : ℚ) : ℚ := T * (N - s - x / P)

/-- An idle `EPRoCLogic` state holding the `StatusVar` defaults of the
source (`n_sweep = 1`, `n_accumulation = 10`, the frequency-sweep plan
`2800 MHz / 2 MHz / 2950 MHz`, and so on). -/
def baseState : EprocState where
  locked := false
  isEprocRunning := false
  stopRequested := false
  stopNextSweepRequested := false
  nSweep := 1
  nAccumulation := 10
  isFs := true
  fsField := 3480
  fsMwPower := -30
  fsStart := 2800000000
  fsStop := 2950000000
  fsStep := 2000000
  bsFrequency := 2870000000
  bsMwPower := -30
  bsStart := 3400
  bsStop := 3500
  bsStep := 1
  liaRange := "0.1"
  liaUac := 0
  liaCoupling := "ac"
  liaIntFreq := 0
  liaTauA := 1/10
  liaPhaseA := 0
  liaTauB := 1/2000
  liaPhaseB := 0
  liaWaitingTimeFactor := 1
  liaHarmonic := "1"
  liaSlope := "6"
  liaConfiguration := "A&B"
  liaWaitingTime := 0
  elapsedSweeps := 0
  elapsedAccumulations := 0
  elapsedX := 0
  pointCount := 0
  plotY := fun _ _ => 0
  rawData := fun _ _ _ _ => 0

/-- The concrete scenario of the spec: plan `start=2800e6, step=2e6,
stop=2949e6` with `accumulationsPerPoint=10`, `repeats=2`. -/
def scenarioState : EprocState :=
  { baseState with nSweep := 2, fsStop := 2949000000 }

/-- A mid-run state used as a concrete input: one point, one accumulation
per point, one sweep, module locked. -/
def tinyRunState : EprocState :=
  { baseState with
    locked := true
    isEprocRunning := true
    nSweep := 1
    nAccumulation := 1
    pointCount := 1 }

/-- A concrete device-response assignment: every capability echoes its
requested value; both magnet settling constants are one second. -/
def idDevices : Devices where
  frequencyInRange := id
  powerInRange := id
  sweepStepInRange := id
  setCw := fun f p => (f, p)
  setCentralField := id
  setInputRange := id
  setAmplitude := id
  setCouplingType := id
  setFrequency := id
  setTimeConstants := fun a b => (a, b)
  setPhases := fun a b => (a, b)
  setHarmonic := id
  setRolloff := id
  setInputConfig := id
  magnetSettlingTime := 1
  magnetSettlingTimeLarge := 1

/-! ## Helper lemmas -/

/-- Rounding a nonnegative rational with `np.rint` is nonnegative. -/
lemma rint_nonneg {q : ℚ} (hq : 0 ≤ q) : 0 ≤ rint q := by
  have hf : 0 ≤ ⌊q⌋ := Int.floor_nonneg.mpr hq
  unfold rint
  split_ifs <;> omega

/-- Rounding one: `np.rint 1 = 1`. -/
lemma rint_one : rint 1 = 1 := by norm_num [rint]

/-- The incremental average is the mean of the per-sweep accumulation
means. -/
lemma incrementalAvg_eq_sum_div (raw : ℕ → ℕ → ℚ) (nAcc : ℕ) (s : ℕ) :
    incrementalAvg raw nAcc s =
      (∑ k ∈ Finset.range (s+1), accumulationMean raw nAcc k) / ((s : ℚ) + 1) := by
  induction s with
  | zero => simp [incrementalAvg, incrementalStep, Finset.sum_range_one]
  | succ s ih =>
      have hne : ((s : ℚ) + 1) ≠ 0 := by positivity
      rw [incrementalAvg, ih, incrementalStep, Finset.sum_range_succ]
      push_cast
      rw [div_mul_cancel₀ _ hne, Finset.sum_range_succ _ (s+1), Finset.sum_range_succ _ s]

/-- Sum of the values of a range list. -/
lemma sum_range_map (m : ℕ) (g : ℕ → ℚ) :
    ((List.range m).map g).sum = ∑ k ∈ Finset.range m, g k := by
  induction m with
  | zero => simp
  | succ m ih =>
      rw [List.range_succ, List.map_append, List.sum_append, Finset.sum_range_succ, ih]
      simp

/-- Sum of a rectangular sample list as a double sum. -/
lemma sum_range_bind (n m : ℕ) (f : ℕ → ℕ → ℚ) :
    ((List.range n).flatMap fun a => (List.range m).map (f a)).sum =
      ∑ a ∈ Finset.range n, ∑ k ∈ Finset.range m, f a k := by
  induction n with
  | zero => simp
  | succ n ih =>
      rw [List.range_succ, List.flatMap_append, List.sum_append, Finset.sum_range_succ, ih]
      simp [sum_range_map]

/-- Length of a rectangular sample list. -/
lemma length_range_bind (n m : ℕ) (f : ℕ → ℕ → ℚ) :
    ((List.range n).flatMap fun a => (List.range m).map (f a)).length = n * m := by
  induction n with
  | zero => simp
  | succ n ih =>
      rw [List.range_succ, List.flatMap_append, List.length_append, ih]
      simp [Nat.succ_mul]

/-- Advancing the point/sweep counters never touches the averaged series. -/
lemma advancePoint_plotY (st : EprocState) : (advancePoint st).plotY = st.plotY := by
  rw [advancePoint]
  split_ifs <;> rfl

/-- Advancing the point/sweep counters never touches the raw cube. -/
lemma advancePoint_rawData (st : EprocState) : (advancePoint st).rawData = st.rawData := by
  rw [advancePoint]
  split_ifs <;> rfl

/-- The all-channels-below-threshold stream keeps every retry loop of
`_get_data_lia` running forever. -/
lemma retryChannel_zero_stream (i : Fin 4) (next : ℕ) :
    ∀ fuel, retryChannel (fun _ _ => (0 : ℚ)) i (fun _ => 0) next fuel = none := by
  intro fuel
  induction fuel generalizing next with
  | zero => simp [retryChannel, liaThreshold]
  | succ fuel ih => simpa [retryChannel, liaThreshold] using ih (next + 1)

/-- A retry loop of `_get_data_lia` terminates once the stream offers a
read whose checked channel clears the threshold, and its exit state again
holds the most recent read. -/
lemma retryChannel_exits (stream : ℕ → Fin 4 → ℚ) (i : Fin 4) (j : ℕ)
    (hj : liaThreshold ≤ |stream j i|) :
    ∀ fuel next cell, cell = stream (next - 1) → 1 ≤ next → next ≤ j + 1 →
      j + 1 - next ≤ fuel →
      ∃ cell' next', retryChannel stream i cell next fuel = some (cell', next') ∧
        cell' = stream (next' - 1) ∧ 1 ≤ next' ∧ next' ≤ j + 1 := by
  intro fuel
  induction fuel with
  | zero =>
      intro next cell hcell h1 h2 h3
      have hnext : next = j + 1 := by omega
      subst hnext
      have : ¬ |cell i| < liaThreshold := by
        rw [hcell]; simpa using not_lt.mpr hj
      exact ⟨cell, j + 1, by simp [retryChannel, this], hcell, by omega, le_refl _⟩
  | succ fuel ih =>
      intro next cell hcell h1 h2 h3
      by_cases hlt : |cell i| < liaThreshold
      · have hne : next - 1 ≠ j := by
          intro h
          rw [hcell, h] at hlt
          exact absurd hj (not_le.mpr hlt)
        have hnext : next ≤ j := by omega
        obtain ⟨cell', next', hrec, hc, hge, hle⟩ :=
          ih (next + 1) (stream next) (by simp) (by omega) (by omega) (by omega)
        exact ⟨cell', next', by simp [retryChannel, hlt, hrec], hc, hge, hle⟩
      · exact ⟨cell, next, by simp [retryChannel, hlt], hcell, h1, h2⟩

/-- A data tick leaves the plan dimensions, the stop-after-sweep flag and
the lock unchanged. -/
lemma set_new_x_value_fields (st : EprocState) :
    (set_new_x_value st).stopNextSweepRequested = st.stopNextSweepRequested ∧
    (set_new_x_value st).nAccumulation = st.nAccumulation ∧
    (set_new_x_value st).pointCount = st.pointCount ∧
    (set_new_x_value st).nSweep = st.nSweep ∧
    (set_new_x_value st).locked = st.locked := by
  rw [set_new_x_value, advancePoint]
  split_ifs <;> exact ⟨rfl, rfl, rfl, rfl, rfl⟩

/-- A tick leaves the plan dimensions and the stop-after-sweep flag
unchanged. -/
lemma next_data_point_fields (st : EprocState) (v : Fin 4 → ℚ) :
    (next_data_point st v).stopNextSweepRequested = st.stopNextSweepRequested ∧
    (next_data_point st v).nAccumulation = st.nAccumulation ∧
    (next_data_point st v).pointCount = st.pointCount ∧
    (next_data_point st v).nSweep = st.nSweep := by
  rw [next_data_point]
  split_ifs
  · exact ⟨rfl, rfl, rfl, rfl⟩
  · exact ⟨rfl, rfl, rfl, rfl⟩
  · obtain ⟨h1, h2, h3, h4, _⟩ := set_new_x_value_fields (storeSample st v)
    exact ⟨h1, h2, h3, h4⟩

/-- A tick leaves the per-sweep time estimate unchanged. -/
lemma sweep_time_next_data_point (dev : Devices) (st : EprocState) (v : Fin 4 → ℚ) :
    sweep_time dev (next_data_point st v) = sweep_time dev st := by
  rw [next_data_point]
  split_ifs
  · rfl
  · rfl
  · rw [set_new_x_value, advancePoint]
    split_ifs <;> rfl

/-- Unfolding `remaining_time` through the counter view. -/
lemma remaining_time_eq (dev : Devices) (st : EprocState) :
    remaining_time dev st =
      remainingOf (sweep_time dev st) (st.nSweep : ℚ) (st.elapsedSweeps : ℚ)
        (st.elapsedX : ℚ) (st.pointCount : ℚ) := rfl

/-- Advancing the point index cannot increase the remaining time. -/
lemma remainingOf_advance_le (T N s x P : ℚ) (hT : 0 ≤ T) (hP : 0 < P) :
    remainingOf T N s (x + 1) P ≤ remainingOf T N s x P := by
  rw [remainingOf, remainingOf]
  have h1 : x / P ≤ (x + 1) / P := by
    rw [div_le_div_iff_of_pos_right hP]
    linarith
  have h2 : N - s - (x + 1) / P ≤ N - s - x / P := by linarith
  exact mul_le_mul_of_nonneg_left h2 hT

/-- A sweep wrap cannot increase the remaining time. -/
lemma remainingOf_wrap_le (T N s x P : ℚ) (hT : 0 ≤ T) (hP : 0 < P)
    (hx : x + 1 = P) :
    remainingOf T N (s + 1) 0 P ≤ remainingOf T N s x P := by
  rw [remainingOf, remainingOf]
  have h1 : x / P ≤ 1 := by
    rw [div_le_one hP]; linarith
  have h2 : N - (s + 1) - 0 / P ≤ N - s - x / P := by
    rw [zero_div]; linarith
  exact mul_le_mul_of_nonneg_left h2 hT

/-- Nat-cast forms of the two step lemmas. -/
lemma remainingOf_wrap_le_nat (T : ℚ) (N s x P : ℕ) (hT : 0 ≤ T) (hP : 0 < P)
    (hx : x + 1 = P) :
    remainingOf T (N : ℚ) ((s + 1 : ℕ) : ℚ) ((0 : ℕ) : ℚ) (P : ℚ) ≤
      remainingOf T (N : ℚ) (s : ℚ) (x : ℚ) (P : ℚ) := by
  have hp : (0 : ℚ) < (P : ℚ) := by exact_mod_cast hP
  have hx' : (x : ℚ) + 1 = (P : ℚ) := by exact_mod_cast hx
  push_cast
  exact remainingOf_wrap_le T N s x P hT hp hx'

lemma remainingOf_advance_le_nat (T : ℚ) (N s x P : ℕ) (hT : 0 ≤ T) (hP : 0 < P) :
    remainingOf T (N : ℚ) (s : ℚ) ((x + 1 : ℕ) : ℚ) (P : ℚ) ≤
      remainingOf T (N : ℚ) (s : ℚ) (x : ℚ) (P : ℚ) := by
  have hp : (0 : ℚ) < (P : ℚ) := by exact_mod_cast hP
  push_cast
  exact remainingOf_advance_le T N s x P hT hp

/-- Tick-over-tick monotonicity of the recomputed remaining time. -/
lemma remaining_time_tick_le (dev : Devices) (st : EprocState) (v : Fin 4 → ℚ)
    (hT : 0 ≤ sweep_time dev st) (hP : 0 < st.pointCount) :
    remaining_time dev (next_data_point st v) ≤ remaining_time dev st := by
  rw [next_data_point]
  split_ifs with h1 h2
  · exact le_refl _
  · exact le_of_eq rfl
  · rw [set_new_x_value, advancePoint]
    split_ifs with h3 h4 h5
    · show remainingOf (sweep_time dev st) (st.nSweep : ℚ)
        ((st.elapsedSweeps + 1 : ℕ) : ℚ) ((0 : ℕ) : ℚ) (st.pointCount : ℚ) ≤
          remaining_time dev st
      rw [remaining_time_eq]
      exact remainingOf_wrap_le_nat _ _ _ _ _ hT hP h4
    · show remainingOf (sweep_time dev st) (st.nSweep : ℚ)
        ((st.elapsedSweeps + 1 : ℕ) : ℚ) ((0 : ℕ) : ℚ) (st.pointCount : ℚ) ≤
          remaining_time dev st
      rw [remaining_time_eq]
      exact remainingOf_wrap_le_nat _ _ _ _ _ hT hP h4
    · show remainingOf (sweep_time dev st) (st.nSweep : ℚ)
        ((st.elapsedSweeps : ℕ) : ℚ) ((st.elapsedX + 1 : ℕ) : ℚ) (st.pointCount : ℚ) ≤
          remaining_time dev st
      rw [remaining_time_eq]
      exact remainingOf_advance_le_nat _ _ _ _ _ hT hP
    · exact le_of_eq rfl

/-- When the sweep counter equals `n_sweep` at a wrapped point index the
remaining time is exactly zero. -/
lemma remaining_time_zero_of_exhausted (dev : Devices) (st : EprocState)
    (hs : st.elapsedSweeps = st.nSweep) (hx : st.elapsedX = 0) :
    remaining_time dev st = 0 := by
  rw [remaining_time_eq, hs, hx]
  rw [remainingOf]
  push_cast
  ring

/-- The stop-processing tick leaves the counters (hence the remaining-time
estimate) unchanged. -/
lemma remaining_time_stop_tick (dev : Devices) (st : EprocState) (w : Fin 4 → ℚ)
    (hl : st.locked = true) (hsr : st.stopRequested = true) :
    remaining_time dev (next_data_point st w) = remaining_time dev st := by
  rw [next_data_point, if_neg (by simp [hl]), if_pos hsr]
  rfl

/-- A tick that latches the stop flag in a fault-free, no-stop-requested
run can only be a sweep wrap with the sweeps exhausted. -/
lemma tick_stop_latch (st : EprocState) (v : Fin 4 → ℚ)
    (hl : st.locked = true) (hsr : st.stopRequested = false)
    (hnext : st.stopNextSweepRequested = false)
    (hstop : (next_data_point st v).stopRequested = true) :
    (next_data_point st v).elapsedSweeps = (next_data_point st v).nSweep ∧
    (next_data_point st v).elapsedX = 0 ∧
    (next_data_point st v).locked = true := by
  rw [next_data_point] at hstop ⊢
  rw [if_neg (by simp [hl]), if_neg (by simp [hsr])] at hstop ⊢
  rw [set_new_x_value, advancePoint] at hstop ⊢
  split_ifs at hstop ⊢ with h3 h4 h5
  · rcases h5 with h5 | h5
    · exact ⟨h5, rfl, hl⟩
    · exact absurd (show st.stopNextSweepRequested = true from h5) (by simp [hnext])
  · exact absurd (show st.stopRequested = true from hstop) (by simp [hsr])
  · exact absurd (show st.stopRequested = true from hstop) (by simp [hsr])
  · exact absurd (show st.stopRequested = true from hstop) (by simp [hsr])

/-- Ticks and stop-after-sweep requests preserve "stop flag implies point
index zero"; only `stop_eproc` can break it. -/
lemma stopflag_at_wrap_applyEvent (st : EprocState) (e : RunEvent)
    (hne : e ≠ RunEvent.stopRequest)
    (h : st.stopRequested = true → st.elapsedX = 0) :
    (applyEvent st e).stopRequested = true → (applyEvent st e).elapsedX = 0 := by
  cases e with
  | stopRequest => exact absurd rfl hne
  | stopNextSweepRequest =>
      rw [applyEvent, stop_eproc_next_sweep]
      split_ifs <;> exact h
  | tick v =>
      rw [applyEvent, next_data_point]
      split_ifs with h1 h2
      · exact h
      · intro hc; exact absurd hc (by simp)
      · rw [set_new_x_value, advancePoint]
        split_ifs with h3 h4 h5
        · intro _; rfl
        · intro hc; exact absurd (show st.stopRequested = true from hc) h2
        · intro hc; exact absurd (show st.stopRequested = true from hc) h2
        · intro hc; exact absurd (show st.stopRequested = true from hc) h2

/-- The point-boundary stop invariant along any run without `stop_eproc`
calls. -/
lemma runEvents_stopflag (st : EprocState) (es : List RunEvent)
    (hno : ∀ e ∈ es, e ≠ RunEvent.stopRequest)
    (h : st.stopRequested = true → st.elapsedX = 0) :
    (runEvents st es).stopRequested = true → (runEvents st es).elapsedX = 0 := by
  induction es generalizing st with
  | nil => exact h
  | cons e es ih =>
      exact ih (applyEvent st e) (fun x hx => hno x (List.mem_cons_of_mem e hx))
        (stopflag_at_wrap_applyEvent st e (hno e (List.mem_cons_self e es)) h)

/-- The only event that can unlock a locked engine is the tick that
processes a pending stop flag, and it preserves the point index. -/
lemma applyEvent_unlock_at_wrap (st : EprocState) (e : RunEvent)
    (hx : st.stopRequested = true → st.elapsedX = 0)
    (hl : st.locked = true) (hl' : (applyEvent st e).locked = false) :
    (applyEvent st e).elapsedX = 0 := by
  cases e with
  | stopRequest =>
      rw [applyEvent, stop_eproc] at hl' ⊢
      split_ifs at hl' ⊢ <;> exact absurd (show st.locked = false from hl') (by simp [hl])
  | stopNextSweepRequest =>
      rw [applyEvent, stop_eproc_next_sweep] at hl' ⊢
      split_ifs at hl' ⊢ <;> exact absurd (show st.locked = false from hl') (by simp [hl])
  | tick v =>
      rw [applyEvent, next_data_point] at hl' ⊢
      split_ifs at hl' ⊢ with h1 h2
      · exact absurd hl' (by simp [hl])
      · exact hx h2
      · rw [set_new_x_value, advancePoint] at hl' ⊢
        split_ifs at hl' ⊢ <;>
          exact absurd (show st.locked = false from hl') (by simp [hl])

/-- The counter invariant is preserved by every event of a run. -/
lemma counterInvariant_applyEvent (st : EprocState) (e : RunEvent)
    (h : counterInvariant st) : counterInvariant (applyEvent st e) := by
  obtain ⟨h1, h2, h3, h4⟩ := h
  cases e with
  | stopRequest =>
      rw [applyEvent, stop_eproc]
      split_ifs
      · exact ⟨h1, h2, h3, fun _ _ => rfl⟩
      · exact ⟨h1, h2, h3, h4⟩
  | stopNextSweepRequest =>
      rw [applyEvent, stop_eproc_next_sweep]
      split_ifs
      · exact ⟨h1, h2, h3, h4⟩
      · exact ⟨h1, h2, h3, h4⟩
  | tick v =>
      rw [applyEvent, next_data_point]
      split_ifs with hL hS
      · exact ⟨h1, h2, h3, h4⟩
      · exact ⟨h1, h2, h3, fun hc _ => absurd hc (by simp)⟩
      · have hl : st.locked = true := by
          revert hL; cases st.locked <;> simp
        have hs : st.stopRequested = false := by
          revert hS; cases st.stopRequested <;> simp
        have hsN : st.elapsedSweeps < st.nSweep := by
          rcases Nat.lt_or_ge st.elapsedSweeps st.nSweep with hlt | hge
          · exact hlt
          · exact absurd (h4 hl (le_antisymm h3 hge)) (by simp [hs])
        rw [set_new_x_value, advancePoint]
        split_ifs with hA hX hW
        · exact ⟨show 0 < st.nAccumulation by omega,
            show 0 < st.pointCount by omega,
            show st.elapsedSweeps + 1 ≤ st.nSweep by omega,
            fun _ _ => rfl⟩
        · have hW' : ¬ (st.elapsedSweeps + 1 = st.nSweep ∨
              st.stopNextSweepRequested = true) := hW
          exact ⟨show 0 < st.nAccumulation by omega,
            show 0 < st.pointCount by omega,
            show st.elapsedSweeps + 1 ≤ st.nSweep by omega,
            fun _ hc => absurd (Or.inl hc) hW'⟩
        · have hX' : ¬ (st.elapsedX + 1 = st.pointCount) := hX
          exact ⟨show 0 < st.nAccumulation by omega,
            show st.elapsedX + 1 < st.pointCount by omega,
            h3, fun _ hc => absurd (h4 hl hc) (by simp [hs])⟩
        · have hA' : ¬ (st.elapsedAccumulations + 1 = st.nAccumulation) := hA
          exact ⟨show st.elapsedAccumulations + 1 < st.nAccumulation by omega,
            h2, h3, fun _ hc => absurd (h4 hl hc) (by simp [hs])⟩

/-- The counter invariant holds along every event sequence. -/
lemma counterInvariant_runEvents (st : EprocState) (es : List RunEvent)
    (h : counterInvariant st) : counterInvariant (runEvents st es) := by
  induction es generalizing st with
  | nil => exact h
  | cons e es ih => exact ih (applyEvent st e) (counterInvariant_applyEvent st e h)

/-- No event resizes the plan dimensions. -/
lemma applyEvent_dims (st : EprocState) (e : RunEvent) :
    (applyEvent st e).nAccumulation = st.nAccumulation ∧
    (applyEvent st e).pointCount = st.pointCount ∧
    (applyEvent st e).nSweep = st.nSweep := by
  cases e with
  | tick v =>
      obtain ⟨_, h2, h3, h4⟩ := next_data_point_fields st v
      exact ⟨h2, h3, h4⟩
  | stopRequest =>
      rw [applyEvent, stop_eproc]
      split_ifs
      · exact ⟨rfl, rfl, rfl⟩
      · exact ⟨rfl, rfl, rfl⟩
  | stopNextSweepRequest =>
      rw [applyEvent, stop_eproc_next_sweep]
      split_ifs
      · exact ⟨rfl, rfl, rfl⟩
      · exact ⟨rfl, rfl, rfl⟩

/-- No event sequence resizes the plan dimensions. -/
lemma runEvents_dims (st : EprocState) (es : List RunEvent) :
    (runEvents st es).nAccumulation = st.nAccumulation ∧
    (runEvents st es).pointCount = st.pointCount ∧
    (runEvents st es).nSweep = st.nSweep := by
  induction es generalizing st with
  | nil => exact ⟨rfl, rfl, rfl⟩
  | cons e es ih =>
      obtain ⟨h1, h2, h3⟩ := ih (applyEvent st e)
      obtain ⟨g1, g2, g3⟩ := applyEvent_dims st e
      exact ⟨h1.trans g1, h2.trans g2, h3.trans g3⟩

/-- Starting a run from an idle state preserves the scan dimensions. -/
lemma start_eproc_dims (st : EprocState) (hL : st.locked = false) :
    (start_eproc st).nAccumulation = st.nAccumulation ∧
    (start_eproc st).nSweep = st.nSweep := by
  rw [start_eproc, if_neg (by simp [hL])]
  exact ⟨rfl, rfl⟩

/-- Starting a run establishes the counter invariant whenever the plan has
at least one accumulation, one sweep and one grid point. -/
lemma counterInvariant_start (st : EprocState) (hL : st.locked = false)
    (hA : 1 ≤ st.nAccumulation) (hN : 1 ≤ st.nSweep)
    (hP : 1 ≤ (start_eproc st).pointCount) :
    counterInvariant (start_eproc st) := by
  rw [start_eproc, if_neg (by simp [hL])] at hP ⊢
  exact ⟨show 0 < st.nAccumulation by omega, hP,
    show (0 : ℕ) ≤ st.nSweep by omega,
    fun _ hc => absurd (show (0 : ℕ) = st.nSweep from hc) (by omega)⟩

/-- The lock bit through the counter projection. -/
lemma countersOf_locked (st : EprocState) : (countersOf st).locked = st.locked := rfl

/-- Projection of a tick onto the counters (for states with no pending
stop-after-sweep request). -/
lemma countersOf_next_data_point (st : EprocState) (v : Fin 4 → ℚ)
    (hnext : st.stopNextSweepRequested = false) :
    countersOf (next_data_point st v) =
      stepCounters st.nAccumulation st.pointCount st.nSweep (countersOf st) := by
  rw [next_data_point, set_new_x_value, advancePoint]
  simp only [countersOf, storeSample, average_data, hnext, stepCounters,
    Bool.false_eq_true, or_false]
  split_ifs <;> simp_all

/-- A tick sequence preserves the plan dimensions and the
stop-after-sweep flag. -/
lemma engineRun_fields (st : EprocState) (vs : ℕ → Fin 4 → ℚ) (t : ℕ) :
    (engineRun st vs t).stopNextSweepRequested = st.stopNextSweepRequested ∧
    (engineRun st vs t).nAccumulation = st.nAccumulation ∧
    (engineRun st vs t).pointCount = st.pointCount ∧
    (engineRun st vs t).nSweep = st.nSweep := by
  induction t with
  | zero => exact ⟨rfl, rfl, rfl, rfl⟩
  | succ t ih =>
      obtain ⟨h1, h2, h3, h4⟩ := ih
      obtain ⟨g1, g2, g3, g4⟩ := next_data_point_fields (engineRun st vs t) (vs t)
      exact ⟨g1.trans h1, g2.trans h2, g3.trans h3, g4.trans h4⟩

/-- Counter bisimulation: the engine's counters after `t` ticks equal the
iterated pure counter dynamics. -/
lemma engineRun_counters (st : EprocState) (vs : ℕ → Fin 4 → ℚ)
    (hnext : st.stopNextSweepRequested = false) (t : ℕ) :
    countersOf (engineRun st vs t) =
      countRun st.nAccumulation st.pointCount st.nSweep t (countersOf st) := by
  induction t with
  | zero => rfl
  | succ t ih =>
      obtain ⟨h1, h2, h3, h4⟩ := engineRun_fields st vs t
      calc countersOf (engineRun st vs (t+1))
          = stepCounters (engineRun st vs t).nAccumulation (engineRun st vs t).pointCount
              (engineRun st vs t).nSweep (countersOf (engineRun st vs t)) :=
            countersOf_next_data_point (engineRun st vs t) (vs t) (h1.trans hnext)
        _ = countRun st.nAccumulation st.pointCount st.nSweep (t+1) (countersOf st) := by
            rw [h2, h3, h4, ih]
            rfl

/-- Evaluation of `arangeSize`. -/
lemma arangeSize_eq (start stop step : ℚ) (h : step ≠ 0) (n : ℕ)
    (hn : ⌈(stop - start) / step⌉ = (n : ℤ)) : arangeSize start stop step = n := by
  rw [arangeSize, if_neg h, hn, Int.toNat_natCast]

/-- The grid built by `start_eproc` on the spec's concrete scenario
(`start=2800e6, step=2e6, stop=2949e6`) has 76 points:
`np.arange(2800e6, 2949e6 + 2e6, 2e6)` has `⌈75.5⌉ = 76` entries. -/
lemma start_scenarioState_pointCount : (start_eproc scenarioState).pointCount = 76 := by
  show arangeSize 2800000000 (2949000000 + 2000000) 2000000 = 76
  apply arangeSize_eq _ _ _ (by norm_num)
  have h : ((2949000000 + 2000000 : ℚ) - 2800000000) / 2000000 = 151/2 := by norm_num
  rw [h, Int.ceil_eq_iff]
  norm_num

/-- The grid built by `start_eproc` on the default plan
(`start=2800e6, step=2e6, stop=2950e6`) has 76 points. -/
lemma start_baseState_pointCount : (start_eproc baseState).pointCount = 76 := by
  show arangeSize 2800000000 (2950000000 + 2000000) 2000000 = 76
  apply arangeSize_eq _ _ _ (by norm_num)
  have h : ((2950000000 + 2000000 : ℚ) - 2800000000) / 2000000 = 76 := by norm_num
  rw [h]
  norm_num

/-! ## Claim theorems -/

/-- C9: for the same raw sample-cube contents and counters, the
incremental reduction of the mw-sweep variant — starting from the
zero-initialised plot and applying
`y ← (y * elapsed_sweeps + accumulation_mean) / (elapsed_sweeps + 1)` once
per completed point per sweep — computes, at every completed point, the
same value as the full recompute from the raw cube performed by the eproc
variant's `_average_data`, under exact arithmetic. -/
theorem C9_incremental_eq_full_recompute (raw : ℕ → ℕ → ℚ) (nAcc s : ℕ) :
    incrementalAvg raw nAcc s = fullRecompute raw nAcc s := by
  rw [incrementalAvg_eq_sum_div, fullRecompute, Finset.sum_comm]
  simp only [accumulationMean]
  rw [← Finset.sum_div, div_div]

/-- C4 counterexample: the claim quantifies over every `step ≠ 0`, but for
`start = 0, step = -1, stop = 0` the normalization
(`set_fs_parameters`'s `stop <= start` guard followed by `_check_range`)
produces `stop' = -1 < start`, violating `stop' >= start`; nothing in the
code forces `n = 1` when the rounded quotient is negative. -/
theorem C4_counterexample :
    ((-1 : ℚ) ≠ 0) ∧ normalizeFs 0 (-1) 0 = -1 ∧
      ¬ (0 ≤ normalizeFs 0 (-1) 0) := by
  refine ⟨by norm_num, ?_, ?_⟩ <;>
    norm_num [normalizeFs, stopGuard, checkRangeStop, rint]

/-- C4 (amended): for all `(start, step, stop)` with `step > 0` (rather
than merely `step ≠ 0`), the normalization yields a `stop'` that differs
from `start` by an exact integer multiple of `step` and satisfies
`stop' ≥ start`; the at-least-one-point guarantee comes from the
`stop <= start` guard, which forces `stop' = start + step` (i.e. `n = 1`)
whenever `stop ≤ start`. -/
theorem C4_normalize_pos_step (start step stop : ℚ) (h : 0 < step) :
    (∃ n : ℤ, normalizeFs start step stop - start = (n : ℚ) * step) ∧
    start ≤ normalizeFs start step stop ∧
    (stop ≤ start → normalizeFs start step stop = start + step) := by
  refine ⟨⟨rint ((stopGuard start step stop - start) / step), ?_⟩, ?_, ?_⟩
  · rw [normalizeFs, checkRangeStop]; ring
  · rw [normalizeFs, checkRangeStop]
    have hq : 0 ≤ (stopGuard start step stop - start) / step := by
      apply div_nonneg _ h.le
      rw [stopGuard]
      split_ifs with hss
      · linarith
      · linarith
    have hr : (0 : ℚ) ≤ (rint ((stopGuard start step stop - start) / step) : ℚ) := by
      exact_mod_cast rint_nonneg hq
    nlinarith [mul_nonneg hr h.le]
  · intro hss
    rw [normalizeFs, stopGuard, if_pos hss, checkRangeStop]
    have : (start + step - start) / step = 1 := by
      field_simp
    rw [this, rint_one]
    push_cast
    ring

/-- C4 witness: the amended theorem applied at `start = 0, step = 1,
stop = 5`. -/
theorem C4_witness :
    (0 : ℚ) < 1 ∧
      ((∃ n : ℤ, normalizeFs 0 1 5 - 0 = (n : ℚ) * 1) ∧
        (0 : ℚ) ≤ normalizeFs 0 1 5 ∧
        ((5 : ℚ) ≤ 0 → normalizeFs 0 1 5 = 0 + 1)) :=
  ⟨by norm_num, C4_normalize_pos_step 0 1 5 (by norm_num)⟩

/-- C1 counterexample: the retry in `_get_data_lia` is not bounded by any
maximum retry count — on the input stream whose reads are identically zero
(every channel below the 1e-7 noise floor) the sample-acquisition step
never terminates, and no transition to a faulted state exists. -/
theorem C1_counterexample : ¬ getDataLiaTerminates (fun _ _ => 0) := by
  rintro ⟨fuel, r, h⟩
  rw [get_data_lia, retryChannel_zero_stream 0 1 fuel] at h
  simp at h

/-- C1 (amended): the retry loop of `_get_data_lia` is unbounded — there
is no configurable maximum retry count and no Faulted transition.  The
sample-acquisition step terminates whenever the input stream eventually
offers a read with all four channel magnitudes at or above the 1e-7
threshold (in particular it does not terminate on a persistently
below-threshold stream, cf. the counterexample). -/
theorem C1_retry_terminates_of_valid_read (stream : ℕ → Fin 4 → ℚ) (j : ℕ)
    (hv : ∀ i : Fin 4, liaThreshold ≤ |stream j i|) :
    getDataLiaTerminates stream := by
  obtain ⟨c1, n1, h1, hc1, hn1, hn1'⟩ :=
    retryChannel_exits stream 0 j (hv 0) j 1 (stream 0) rfl (by omega) (by omega) (by omega)
  obtain ⟨c2, n2, h2, hc2, hn2, hn2'⟩ :=
    retryChannel_exits stream 1 j (hv 1) j n1 c1 hc1 hn1 hn1' (by omega)
  obtain ⟨c3, n3, h3, hc3, hn3, hn3'⟩ :=
    retryChannel_exits stream 2 j (hv 2) j n2 c2 hc2 hn2 hn2' (by omega)
  obtain ⟨c4, n4, h4, _, _, _⟩ :=
    retryChannel_exits stream 3 j (hv 3) j n3 c3 hc3 hn3 hn3' (by omega)
  exact ⟨j, c4, by simp [get_data_lia, h1, h2, h3, h4]⟩

/-- C1 witness: a stream whose first read is invalid and whose second read
is valid on all channels satisfies the amended theorem's hypothesis, so
the step terminates on it. -/
theorem C1_witness :
    (∀ i : Fin 4, liaThreshold ≤ |(fun n (_ : Fin 4) => if n = 0 then (0:ℚ) else 1) 1 i|) ∧
      getDataLiaTerminates (fun n (_ : Fin 4) => if n = 0 then (0:ℚ) else 1) :=
  ⟨fun _ => by norm_num [liaThreshold],
    C1_retry_terminates_of_valid_read _ 1 (fun _ => by norm_num [liaThreshold])⟩

/-- C2: whenever a point completes its accumulations (in any sweep), the
averaged-series entry for that point is set to the exact per-channel
arithmetic mean of all raw samples stored at that point across every
completed sweep plus the just-completed accumulations of the in-progress
sweep — equal to a reference mean computed independently over exactly
those samples. -/
theorem C2_point_reduction_exact_mean (st : EprocState) (v : Fin 4 → ℚ) (ch : Fin 4)
    (hl : st.locked = true) (hs : st.stopRequested = false)
    (hacc : st.elapsedAccumulations + 1 = st.nAccumulation) :
    (next_data_point st v).plotY st.elapsedX ch =
      referenceMean (pointSamples (storeSample st v) st.elapsedX ch) := by
  have hx : (storeSample st v).elapsedAccumulations + 1 = (storeSample st v).nAccumulation :=
    hacc
  rw [next_data_point, if_neg (by simp [hl]), if_neg (by simp [hs]), set_new_x_value,
    if_pos hx, advancePoint_plotY, average_data]
  dsimp only
  rw [if_pos (show st.elapsedX = (storeSample st v).elapsedX from rfl)]
  rw [referenceMean, pointSamples, sum_range_bind, length_range_bind]
  push_cast
  rfl

/-- C7: every parameter-mutation operation (microwave-sweep, field-sweep
and lock-in settings, scan parameters) and `start_eproc` itself, when
called while the engine is running (module locked), fails synchronously
and leaves the entire state — every parameter field and the run state —
unchanged. -/
theorem C7_running_rejects_mutations (dev : Devices) (st : EprocState)
    (start step stop field power frequency : ℚ) (pos pos2 : ℕ)
    (inputRange coupling harmonic slope configuration : String)
    (uac intRefFreq tauA phaseA tauB phaseB wtf : ℚ) (ns na : ℕ)
    (h : st.locked = true) :
    set_fs_parameters dev st start step stop field power pos = st ∧
    set_bs_parameters dev st start step stop frequency power pos2 = st ∧
    set_lia_parameters dev st inputRange uac coupling intRefFreq tauA phaseA tauB phaseB
      wtf harmonic slope configuration = st ∧
    set_eproc_scan_parameters st ns na = st ∧
    start_eproc st = st ∧ start_eproc_code st = -1 := by
  refine ⟨?_, ?_, ?_, ?_, ?_, ?_⟩ <;>
    simp [set_fs_parameters, set_bs_parameters, set_lia_parameters,
          set_eproc_scan_parameters, start_eproc, start_eproc_code, h]

/-- C8: a stop requested mid-accumulation modifies no raw sample already
stored in the cube and leaves every averaged-series entry (in particular
the in-progress point's) at its pre-point value — its reduction never
runs; the transition only unlocks the module, and subsequent ticks are
no-ops. -/
theorem C8_stop_mid_accumulation_preserves_data (st : EprocState) (v w : Fin 4 → ℚ)
    (h : st.locked = true) :
    (∀ a k i ch, (next_data_point (stop_eproc st) v).rawData a k i ch = st.rawData a k i ch) ∧
    (∀ i ch, (next_data_point (stop_eproc st) v).plotY i ch = st.plotY i ch) ∧
    (next_data_point (stop_eproc st) v).locked = false ∧
    next_data_point (next_data_point (stop_eproc st) v) w =
      next_data_point (stop_eproc st) v := by
  refine ⟨?_, ?_, ?_, ?_⟩ <;> simp [stop_eproc, next_data_point, h]

/-- C5: with a nonnegative per-sweep time estimate and a nonempty grid,
the recomputed remaining time is monotonically non-increasing from one
tick to the next; and in a fault-free run (no stop requests pending) the
tick that exhausts all sweeps leaves the remaining time at exactly zero,
as does the following tick — the one that performs the transition to the
stopped state. -/
theorem C5_remaining_time_monotone_and_zero (dev : Devices) (st : EprocState)
    (v w : Fin 4 → ℚ) (hT : 0 ≤ sweep_time dev st) (hP : 0 < st.pointCount) :
    remaining_time dev (next_data_point st v) ≤ remaining_time dev st ∧
    (st.locked = true → st.stopRequested = false → st.stopNextSweepRequested = false →
      (next_data_point st v).stopRequested = true →
      remaining_time dev (next_data_point st v) = 0 ∧
      remaining_time dev (next_data_point (next_data_point st v) w) = 0) := by
  refine ⟨remaining_time_tick_le dev st v hT hP, fun hl hsr hnext hstop => ?_⟩
  obtain ⟨hse, hx0, hl'⟩ := tick_stop_latch st v hl hsr hnext hstop
  have hz : remaining_time dev (next_data_point st v) = 0 :=
    remaining_time_zero_of_exhausted dev _ hse hx0
  exact ⟨hz, by rw [remaining_time_stop_tick dev _ w hl' hstop, hz]⟩

/-- C5 witness: the theorem applied to the one-point, one-accumulation,
one-sweep run state; the single tick exhausts the run and the remaining
time is zero on it and on the stopping tick. -/
theorem C5_witness :
    0 ≤ sweep_time idDevices tinyRunState ∧ 0 < tinyRunState.pointCount ∧
    (remaining_time idDevices (next_data_point tinyRunState fun _ => 1) ≤
        remaining_time idDevices tinyRunState ∧
      (tinyRunState.locked = true → tinyRunState.stopRequested = false →
        tinyRunState.stopNextSweepRequested = false →
        (next_data_point tinyRunState fun _ => 1).stopRequested = true →
        remaining_time idDevices (next_data_point tinyRunState fun _ => 1) = 0 ∧
        remaining_time idDevices
          (next_data_point (next_data_point tinyRunState fun _ => 1) fun _ => 1) = 0)) :=
  ⟨by norm_num [sweep_time, tinyRunState, baseState],
   by norm_num [tinyRunState, baseState],
   C5_remaining_time_monotone_and_zero idDevices tinyRunState (fun _ => 1) (fun _ => 1)
     (by norm_num [sweep_time, tinyRunState, baseState])
     (by norm_num [tinyRunState, baseState])⟩

/-- C6: in a run during which `stop_eproc` is never called (only ticks and
`stop_eproc_next_sweep` requests), whenever an event takes the engine from
locked to unlocked — the transition to the stopped state — the point index
is zero immediately after the transition: the engine only stops at a
point-index wrap and never mid-sweep on account of a stop-after-sweep
request. -/
theorem C6_stop_after_sweep_stops_at_wrap (st : EprocState) (es : List RunEvent)
    (e : RunEvent)
    (hno : ∀ x ∈ es, x ≠ RunEvent.stopRequest)
    (h0 : st.stopRequested = false)
    (hrun : (runEvents st es).locked = true)
    (hstopped : (runEvents st (es ++ [e])).locked = false) :
    (runEvents st (es ++ [e])).elapsedX = 0 := by
  have hfold : runEvents st (es ++ [e]) = applyEvent (runEvents st es) e := by
    rw [runEvents, runEvents, List.foldl_append, List.foldl_cons, List.foldl_nil]
  rw [hfold] at hstopped ⊢
  exact applyEvent_unlock_at_wrap (runEvents st es) e
    (runEvents_stopflag st es hno fun hc => absurd hc (by simp [h0])) hrun hstopped

/-- C6 witness: on the one-point run state, a stop-after-sweep request
followed by the single tick of the sweep latches the stop at the wrap, and
the next tick stops the engine with the point index at zero. -/
theorem C6_witness :
    (∀ x ∈ [RunEvent.stopNextSweepRequest, RunEvent.tick fun _ => 1],
      x ≠ RunEvent.stopRequest) ∧
    tinyRunState.stopRequested = false ∧
    (runEvents tinyRunState [RunEvent.stopNextSweepRequest, RunEvent.tick fun _ => 1]).locked
      = true ∧
    (runEvents tinyRunState ([RunEvent.stopNextSweepRequest, RunEvent.tick fun _ => 1] ++
      [RunEvent.tick fun _ => 1])).locked = false ∧
    (runEvents tinyRunState ([RunEvent.stopNextSweepRequest, RunEvent.tick fun _ => 1] ++
      [RunEvent.tick fun _ => 1])).elapsedX = 0 :=
  ⟨by
    intro x hx
    simp only [List.mem_cons, List.not_mem_nil, or_false] at hx
    rcases hx with rfl | rfl <;> simp,
   rfl, rfl, rfl,
   C6_stop_after_sweep_stops_at_wrap tinyRunState _ _
     (by
       intro x hx
       simp only [List.mem_cons, List.not_mem_nil, or_false] at hx
       rcases hx with rfl | rfl <;> simp)
     rfl rfl rfl⟩

/-- C10: provided the started plan has at least one accumulation, one
sweep and one grid point, the counter triple is a run invariant: after
every event of a run started by `start_eproc`,
`elapsed_accumulations < n_accumulation`, `elapsed_x < pointCount` and
`elapsed_sweeps ≤ n_sweep` with equality only when a stop is already
latched; the plan dimensions are never resized; and whenever another data
tick can run (locked, no stop pending) the indices of its raw-cube write
are strictly within the preallocated bounds. -/
theorem C10_counters_bounded (st : EprocState) (es : List RunEvent)
    (hL : st.locked = false) (hA : 1 ≤ st.nAccumulation) (hN : 1 ≤ st.nSweep)
    (hP : 1 ≤ (start_eproc st).pointCount) :
    counterInvariant (runEvents (start_eproc st) es) ∧
    (runEvents (start_eproc st) es).nAccumulation = st.nAccumulation ∧
    (runEvents (start_eproc st) es).nSweep = st.nSweep ∧
    (runEvents (start_eproc st) es).pointCount = (start_eproc st).pointCount ∧
    ((runEvents (start_eproc st) es).locked = true →
      (runEvents (start_eproc st) es).stopRequested = false →
      (runEvents (start_eproc st) es).elapsedAccumulations <
          (runEvents (start_eproc st) es).nAccumulation ∧
        (runEvents (start_eproc st) es).elapsedSweeps <
          (runEvents (start_eproc st) es).nSweep ∧
        (runEvents (start_eproc st) es).elapsedX <
          (runEvents (start_eproc st) es).pointCount) := by
  obtain ⟨i1, i2, i3, i4⟩ :=
    counterInvariant_runEvents _ es (counterInvariant_start st hL hA hN hP)
  obtain ⟨d1, d2, d3⟩ := runEvents_dims (start_eproc st) es
  obtain ⟨s1, s2⟩ := start_eproc_dims st hL
  refine ⟨⟨i1, i2, i3, i4⟩, d1.trans s1, d3.trans s2, d2, fun hl hs => ⟨i1, ?_, i2⟩⟩
  exact Nat.lt_of_le_of_ne i3 fun hc => absurd (i4 hl hc) (by simp [hs])

/-- C10 witness: the theorem applied to the default idle state and a
one-tick run. -/
theorem C10_witness :
    (baseState.locked = false ∧ 1 ≤ baseState.nAccumulation ∧ 1 ≤ baseState.nSweep ∧
      1 ≤ (start_eproc baseState).pointCount) ∧
    (counterInvariant (runEvents (start_eproc baseState) [RunEvent.tick fun _ => 1]) ∧
      (runEvents (start_eproc baseState) [RunEvent.tick fun _ => 1]).nAccumulation =
        baseState.nAccumulation ∧
      (runEvents (start_eproc baseState) [RunEvent.tick fun _ => 1]).nSweep =
        baseState.nSweep ∧
      (runEvents (start_eproc baseState) [RunEvent.tick fun _ => 1]).pointCount =
        (start_eproc baseState).pointCount ∧
      ((runEvents (start_eproc baseState) [RunEvent.tick fun _ => 1]).locked = true →
        (runEvents (start_eproc baseState) [RunEvent.tick fun _ => 1]).stopRequested = false →
        (runEvents (start_eproc baseState) [RunEvent.tick fun _ => 1]).elapsedAccumulations <
            (runEvents (start_eproc baseState) [RunEvent.tick fun _ => 1]).nAccumulation ∧
          (runEvents (start_eproc baseState) [RunEvent.tick fun _ => 1]).elapsedSweeps <
            (runEvents (start_eproc baseState) [RunEvent.tick fun _ => 1]).nSweep ∧
          (runEvents (start_eproc baseState) [RunEvent.tick fun _ => 1]).elapsedX <
            (runEvents (start_eproc baseState) [RunEvent.tick fun _ => 1]).pointCount)) :=
  ⟨⟨rfl, by norm_num [baseState], by norm_num [baseState],
      by rw [start_baseState_pointCount]; norm_num⟩,
   C10_counters_bounded baseState [RunEvent.tick fun _ => 1] rfl
     (by norm_num [baseState]) (by norm_num [baseState])
     (by rw [start_baseState_pointCount]; norm_num)⟩

/-- Closed form of the counter dynamics for the concrete plan
`n_accumulation = 10`, `pointCount = 76`, `n_sweep = 2`: after `t ≤ 1520`
ticks the counters follow the div/mod decomposition of `t`, and at
`t = 1520` exactly the stop flag is latched with the sweeps exhausted. -/
lemma countRun_formula (t : ℕ) (ht : t ≤ 1520) :
    countRun 10 76 2 t ⟨true, false, 0, 0, 0⟩ =
      if t = 1520 then ⟨true, true, 0, 0, 2⟩
      else ⟨true, false, t % 10, t / 10 % 76, t / 760⟩ := by
  induction t with
  | zero =>
      rw [show countRun 10 76 2 0 ⟨true, false, 0, 0, 0⟩ = ⟨true, false, 0, 0, 0⟩ from rfl]
      norm_num
  | succ t ih =>
      have ht' : t ≤ 1520 := by omega
      have ht'' : t ≠ 1520 := by omega
      rw [show countRun 10 76 2 (t+1) ⟨true, false, 0, 0, 0⟩ =
          stepCounters 10 76 2 (countRun 10 76 2 t ⟨true, false, 0, 0, 0⟩) from rfl,
        ih ht', if_neg ht'']
      by_cases h1 : t % 10 + 1 = 10
      · by_cases h2 : t / 10 % 76 + 1 = 76
        · by_cases h3 : t / 760 + 1 = 2
          · have hfin : t + 1 = 1520 := by omega
            simp [stepCounters, h1, h2, h3, hfin]
          · have hfin : t + 1 ≠ 1520 := by omega
            have e1 : (t + 1) % 10 = 0 := by omega
            have e2 : (t + 1) / 10 % 76 = 0 := by omega
            have e3 : (t + 1) / 760 = t / 760 + 1 := by omega
            simp [stepCounters, h1, h2, h3, hfin, e1, e2, e3]
        · have hfin : t + 1 ≠ 1520 := by omega
          have e1 : (t + 1) % 10 = 0 := by omega
          have e2 : (t + 1) / 10 % 76 = t / 10 % 76 + 1 := by omega
          have e3 : (t + 1) / 760 = t / 760 := by omega
          simp [stepCounters, h1, h2, hfin, e1, e2, e3]
      · have hfin : t + 1 ≠ 1520 := by omega
        have e1 : (t + 1) % 10 = t % 10 + 1 := by omega
        have e2 : (t + 1) / 10 % 76 = t / 10 % 76 := by omega
        have e3 : (t + 1) / 760 = t / 760 := by omega
        simp [stepCounters, h1, hfin, e1, e2, e3]

/-- C3 counterexample: on the spec's own inputs
(`start=2800e6, step=2e6, stop=2949e6`) the validator's stop rewrite
(`stop = start + int(np.rint((stop-start)/step)) * step`) yields
`2948e6` — `np.rint(74.5)` rounds to even, giving 74 — not the claimed
`2950e6`. -/
theorem C3_counterexample :
    checkRangeStop 2800000000 2000000 2949000000 = 2948000000 ∧
    checkRangeStop 2800000000 2000000 2949000000 ≠ 2950000000 := by
  constructor <;> norm_num [checkRangeStop, rint]

/-- C3 (amended): the run path of `start_eproc` never invokes the
`_check_range` stop rewrite (which would yield `2948e6`, cf. the
counterexample); instead the grid is `np.arange(start, stop + step, step)`
with the stored stop left at `2949e6`, which has exactly 76 points, the
last at `2950e6`; with `n_accumulation = 10` and `n_sweep = 2` the
preallocated cube holds `10 × 2 × 76 = 1520` samples per channel, and a
full run performs exactly 1520 sample-storing ticks, after which the stop
is latched with the sweeps exhausted and the next tick stops the engine. -/
theorem C3_scenario_grid_and_samples :
    (start_eproc scenarioState).pointCount = 76 ∧
    arangeVal 2800000000 2000000 75 = 2950000000 ∧
    (start_eproc scenarioState).nAccumulation * (start_eproc scenarioState).nSweep *
        (start_eproc scenarioState).pointCount = 1520 ∧
    countersOf (engineRun (start_eproc scenarioState) (fun _ _ => 1) 1520) =
      ⟨true, true, 0, 0, 2⟩ ∧
    (engineRun (start_eproc scenarioState) (fun _ _ => 1) 1521).locked = false := by
  have hP := start_scenarioState_pointCount
  have hA : (start_eproc scenarioState).nAccumulation = 10 := rfl
  have hN : (start_eproc scenarioState).nSweep = 2 := rfl
  have h0 : countersOf (start_eproc scenarioState) = ⟨true, false, 0, 0, 0⟩ := rfl
  have hrun : countRun 10 76 2 1520 ⟨true, false, 0, 0, 0⟩ = ⟨true, true, 0, 0, 2⟩ := by
    rw [countRun_formula 1520 (le_refl _)]
    norm_num
  refine ⟨hP, by norm_num [arangeVal], by rw [hA, hN, hP], ?_, ?_⟩
  · rw [engineRun_counters _ _ rfl 1520, h0, hA, hN, hP, hrun]
  · rw [← countersOf_locked, engineRun_counters _ _ rfl 1521, h0, hA, hN, hP]
    rw [show countRun 10 76 2 1521 ⟨true, false, 0, 0, 0⟩ =
        stepCounters 10 76 2 (countRun 10 76 2 1520 ⟨true, false, 0, 0, 0⟩) from rfl, hrun]
    rfl

/-- C2 witness: the theorem applied to the one-accumulation run state:
the tick completes the point and the plot entry equals the reference
mean. -/
theorem C2_witness :
    (tinyRunState.locked = true ∧ tinyRunState.stopRequested = false ∧
      tinyRunState.elapsedAccumulations + 1 = tinyRunState.nAccumulation) ∧
    (next_data_point tinyRunState fun _ => 1).plotY tinyRunState.elapsedX 0 =
      referenceMean
        (pointSamples (storeSample tinyRunState fun _ => 1) tinyRunState.elapsedX 0) :=
  ⟨⟨rfl, rfl, rfl⟩, C2_point_reduction_exact_mean tinyRunState (fun _ => 1) 0 rfl rfl rfl⟩

/-- C7 witness: the theorem applied to the locked run state and arbitrary
concrete arguments. -/
theorem C7_witness :
    tinyRunState.locked = true ∧
    (set_fs_parameters idDevices tinyRunState 1 2 3 4 5 0 = tinyRunState ∧
      set_bs_parameters idDevices tinyRunState 1 2 3 6 5 0 = tinyRunState ∧
      set_lia_parameters idDevices tinyRunState "r" 1 "c" 2 3 4 5 6 7 "h" "s" "cfg" =
        tinyRunState ∧
      set_eproc_scan_parameters tinyRunState 3 4 = tinyRunState ∧
      start_eproc tinyRunState = tinyRunState ∧ start_eproc_code tinyRunState = -1) :=
  ⟨rfl, C7_running_rejects_mutations idDevices tinyRunState 1 2 3 4 5 6 0 0
    "r" "c" "h" "s" "cfg" 1 2 3 4 5 6 7 3 4 rfl⟩

/-- C8 witness: the theorem applied to the one-point run state. -/
theorem C8_witness :
    tinyRunState.locked = true ∧
    ((∀ a k i ch, (next_data_point (stop_eproc tinyRunState) fun _ => 1).rawData a k i ch =
        tinyRunState.rawData a k i ch) ∧
      (∀ i ch, (next_data_point (stop_eproc tinyRunState) fun _ => 1).plotY i ch =
        tinyRunState.plotY i ch) ∧
      (next_data_point (stop_eproc tinyRunState) fun _ => 1).locked = false ∧
      next_data_point (next_data_point (stop_eproc tinyRunState) fun _ => 1) (fun _ => 2) =
        next_data_point (stop_eproc tinyRunState) fun _ => 1) :=
  ⟨rfl, C8_stop_mid_accumulation_preserves_data tinyRunState (fun _ => 1) (fun _ => 2) rfl⟩

end EPRoC
